import Mathlib

/-!
Verification of the yes-chef-challenge backend core: the data model and
pydantic-style validation (src/backend/src/models.py), the catalog fuzzy
search (src/backend/src/catalog.py), the agent tool loop
(src/backend/src/agent.py), the persistence layer (src/backend/src/state.py)
and the batch orchestrator (src/backend/main.py).

Conventions of the embedding:
* Python floats carried in JSON payloads are modelled as rationals (`Rat`).
* The external reasoning service (OpenAI) is modelled as data: the messages
  it returns are inputs to the embedded functions.
* The rapidfuzz scorer (`fuzz.partial_token_sort_ratio`) is an external C++
  library function; it is modelled as an abstract score function
  `String → String → Rat` on the 0–100 scale.
-/

namespace YesChef

/-! ## Data model (src/backend/src/models.py) -/

/-- The `source` Literal of `Ingredient`:
`Literal["sysco_catalog", "estimated", "not_available"]`. -/
inductive Source where
  | sysco_catalog
  | estimated
  | not_available
deriving DecidableEq

/-- The pydantic `Ingredient` model: name, quantity, optional unit cost,
pricing source, optional Sysco item number. -/
structure Ingredient where
  name : String
  quantity : String
  unit_cost : Option Rat := none
  source : Source
  sysco_item_number : Option String := none
deriving DecidableEq

/-- The pydantic `LineItem` model: a dish with its ingredient breakdown and
an `ingredient_cost_per_unit` float field.  Note the cost field is a plain
float field of the model; no validator ties it to `ingredients`. -/
structure LineItem where
  item_name : String
  category : String
  ingredients : List Ingredient
  ingredient_cost_per_unit : Rat
deriving DecidableEq

/-- Sum of the non-null `unit_cost` values of a list of ingredients; a null
cost contributes zero (the quantity the spec says `ingredient_cost_per_unit`
should equal). -/
def sumNonNullCosts (l : List Ingredient) : Rat :=
  (l.map (fun i => i.unit_cost.getD 0)).sum

/-- The `status` Literal of `JobState`. -/
inductive JobStatus where
  | pending
  | in_progress
  | completed
  | failed
deriving DecidableEq

/-- The pydantic `JobState` model with its field defaults.
`processed_count` is a Python `int`, modelled as `Int`. -/
structure JobState where
  processed_count : Int := 0
  processed_items : List LineItem := []
  current_learnings : String := "None yet. Proceed with standard search."
  status : JobStatus := .pending
deriving DecidableEq

/-- `JobState()`: the blank state produced by the model defaults. -/
def JobState.blank : JobState := {}

/-! ## JSON values and pydantic-style validation

`LineItem.model_validate_json` / `JobState(**data)` validate a decoded JSON
document against the model.  Pydantic v2 runs in lax mode by default: field
values are type-checked, numeric strings are coerced to numbers, and keys
not declared on the model are silently ignored (`extra='ignore'`).
No cross-field constraint is checked.  The functions below embed exactly
that shape check for the `Ingredient` and `LineItem` models. -/

/-- A decoded JSON document. -/
inductive Json where
  | null
  | bool (b : Bool)
  | num (q : Rat)
  | str (s : String)
  | arr (elems : List Json)
  | obj (fields : List (String × Json))

/-- First binding of a key in a JSON object (Python dicts hold each key
once, so first = only). -/
def lookupField : List (String × Json) → String → Option Json
  | [], _ => none
  | (k, v) :: rest, key => if k = key then some v else lookupField rest key

/-- Digits-only parse of a character list. -/
def parseDigits (cs : List Char) : Option Nat :=
  if cs ≠ [] ∧ cs.all Char.isDigit then
    some (cs.foldl (fun n c => 10 * n + (c.toNat - 48)) 0)
  else none

/-- Split a character list at the first `'.'`. -/
def splitOnDot : List Char → List Char × Option (List Char)
  | [] => ([], none)
  | c :: rest =>
    if c = '.' then ([], some rest)
    else
      let p := splitOnDot rest
      (c :: p.1, p.2)

/-- Decimal-string parse used to model pydantic's lax `str → float`
coercion (e.g. `"12.5"` is accepted for a float field). -/
def decodeDecimal (s : String) : Option Rat :=
  let core : Bool × List Char :=
    match s.data with
    | '-' :: t => (true, t)
    | t => (false, t)
  let sp := splitOnDot core.2
  let mag : Option Rat :=
    match sp.2 with
    | none => (parseDigits sp.1).map fun n => mkRat n 1
    | some fpart =>
      match parseDigits sp.1, parseDigits fpart with
      | some n, some fr =>
        some (mkRat (n * 10 ^ fpart.length + fr) (10 ^ fpart.length))
      | _, _ => none
  mag.map fun q => if core.1 then -q else q

/-- A `str` field accepts exactly JSON strings. -/
def jsonToStr : Json → Option String
  | .str s => some s
  | _ => none

/-- An `Optional[str]` field accepts null or a string. -/
def jsonToOptStr : Json → Option (Option String)
  | .null => some none
  | .str s => some (some s)
  | _ => none

/-- A `float` field in lax mode accepts a number or a numeric string. -/
def jsonToFloat : Json → Option Rat
  | .num q => some q
  | .str s => decodeDecimal s
  | _ => none

/-- An `Optional[float]` field in lax mode: null, a number, or a numeric
string. -/
def jsonToOptFloat : Json → Option (Option Rat)
  | .null => some none
  | .num q => some (some q)
  | .str s => (decodeDecimal s).map some
  | _ => none

/-- The `source` Literal accepts exactly its three string values. -/
def jsonToSource : Json → Option Source
  | .str "sysco_catalog" => some .sysco_catalog
  | .str "estimated" => some .estimated
  | .str "not_available" => some .not_available
  | _ => none

/-- An optional-with-default field: a missing key falls back to the model
default `None`; a present key is validated. -/
def optionalField {α : Type} (fields : List (String × Json)) (key : String)
    (f : Json → Option (Option α)) : Option (Option α) :=
  match lookupField fields key with
  | none => some none
  | some v => f v

/-- Pydantic validation of the `Ingredient` model (lax mode, extras
ignored). -/
def validateIngredient : Json → Option Ingredient
  | .obj fields => do
    let name ← (lookupField fields "name").bind jsonToStr
    let quantity ← (lookupField fields "quantity").bind jsonToStr
    let uc ← optionalField fields "unit_cost" jsonToOptFloat
    let src ← (lookupField fields "source").bind jsonToSource
    let sin ← optionalField fields "sysco_item_number" jsonToOptStr
    pure { name := name, quantity := quantity, unit_cost := uc,
           source := src, sysco_item_number := sin }
  | _ => none

/-- Validation of a JSON array elementwise against `Ingredient`. -/
def validateIngredients : List Json → Option (List Ingredient)
  | [] => some []
  | j :: rest => do
    let i ← validateIngredient j
    let tl ← validateIngredients rest
    pure (i :: tl)

/-- Pydantic validation of the `LineItem` model
(`LineItem.model_validate_json`, lax mode, extras ignored). -/
def validateLineItem : Json → Option LineItem
  | .obj fields => do
    let item_name ← (lookupField fields "item_name").bind jsonToStr
    let category ← (lookupField fields "category").bind jsonToStr
    let ingredients ←
      match lookupField fields "ingredients" with
      | some (.arr l) => validateIngredients l
      | _ => none
    let cost ← (lookupField fields "ingredient_cost_per_unit").bind jsonToFloat
    pure { item_name := item_name, category := category,
           ingredients := ingredients, ingredient_cost_per_unit := cost }
  | _ => none

/-- `model_dump` of an optional float field. -/
def encodeOptRat : Option Rat → Json
  | none => .null
  | some q => .num q

/-- `model_dump` of an optional string field. -/
def encodeOptStr : Option String → Json
  | none => .null
  | some s => .str s

/-- The string value of each `source` Literal member. -/
def Source.toStr : Source → String
  | .sysco_catalog => "sysco_catalog"
  | .estimated => "estimated"
  | .not_available => "not_available"

/-- `model_dump` of an `Ingredient`. -/
def encodeIngredient (i : Ingredient) : Json :=
  .obj [("name", .str i.name), ("quantity", .str i.quantity),
        ("unit_cost", encodeOptRat i.unit_cost),
        ("source", .str i.source.toStr),
        ("sysco_item_number", encodeOptStr i.sysco_item_number)]

/-- `model_dump` of a `LineItem`. -/
def encodeLineItem (li : LineItem) : Json :=
  .obj [("item_name", .str li.item_name), ("category", .str li.category),
        ("ingredients", .arr (li.ingredients.map encodeIngredient)),
        ("ingredient_cost_per_unit", .num li.ingredient_cost_per_unit)]

/-! ## Catalog search (src/backend/src/catalog.py)

`SyscoCatalog.__init__` loads the CSV, uppercases `Product Description` and
parses `Cost` into a non-negative float (the spec places this ETL out of
scope); a loaded catalog is a list of rows whose `description` is already
case-normalized.  `search` calls `rapidfuzz.process.extract`, an external
library function; following its documented contract it is embedded as:
score every description, keep those scoring at least `score_cutoff`, order
by descending score with ties kept in original table order (the selection
rapidfuzz's `heapq.nlargest`-style extraction produces), and take the first
`limit`.  The tie order is realised by sorting with the total order
"higher score first, then lower original index first", which on the
duplicate-free indices coincides with the stable descending sort.
The code rounds the reported `match_score` to two decimals for display
(binary floating-point rounding, not modelled: scores are kept exact). -/

/-- One cleaned catalog row (columns `Sysco Item Number`,
`Product Description` (upper-cased at load), `Brand`, `Unit of Measure`,
`Cost`). -/
structure CatalogRow where
  sysco_item_number : String
  description : String
  brand : String
  unit_of_measure : String
  cost : Rat
deriving DecidableEq

/-- One formatted search result, as built in `SyscoCatalog.search`. -/
structure SearchResult where
  sysco_id : String
  desc : String
  brand : String
  pack_size : String
  case_price : Rat
  match_score : Rat
deriving DecidableEq

/-- A scored catalog row together with its original table index, as
produced by `process.extract` before formatting. -/
structure Scored where
  row : CatalogRow
  score : Rat
  idx : Nat
deriving DecidableEq

/-- Model of `rapidfuzz.utils.default_process`: replace non-alphanumeric
characters by spaces, lower-case, trim.  The code then upper-cases the
result; the cleaned query is only ever consumed by the abstract scorer. -/
def default_process (q : String) : String :=
  (String.mk (q.data.map fun c => if c.isAlphanum then c.toLower else ' ')).trim

/-- The extraction order of `process.extract`: strictly higher score first;
among equal scores, the row earlier in the table first. -/
def rankRel (a b : Scored) : Prop :=
  b.score < a.score ∨ (a.score = b.score ∧ a.idx ≤ b.idx)

instance : DecidableRel rankRel := fun a b => by
  unfold rankRel; infer_instance

instance : IsTotal Scored rankRel where
  total a b := by
    rcases lt_trichotomy a.score b.score with h | h | h
    · exact Or.inr (Or.inl h)
    · rcases Nat.le_total a.idx b.idx with hi | hi
      · exact Or.inl (Or.inr ⟨h, hi⟩)
      · exact Or.inr (Or.inr ⟨h.symm, hi⟩)
    · exact Or.inl (Or.inl h)

instance : IsTrans Scored rankRel where
  trans a b c hab hbc := by
    rcases hab with hab | ⟨he1, hi1⟩
    · rcases hbc with hbc | ⟨he2, hi2⟩
      · exact Or.inl (hbc.trans hab)
      · exact Or.inl (by rw [← he2]; exact hab)
    · rcases hbc with hbc | ⟨he2, hi2⟩
      · exact Or.inl (by rw [he1]; exact hbc)
      · exact Or.inr ⟨he1.trans he2, hi1.trans hi2⟩

/-- Score each row against the cleaned query, remembering its original
table index (the index `process.extract` reports back). -/
def scoreRows (f : String → Rat) : Nat → List CatalogRow → List Scored
  | _, [] => []
  | i, r :: rs => { row := r, score := f r.description, idx := i } :: scoreRows f (i + 1) rs

/-- `SyscoCatalog.search` up to the final formatting step: the guard on an
empty query, query normalization, and the `process.extract` call. -/
def searchRanked (scorer : String → String → Rat) (rows : List CatalogRow)
    (query : String) (limit : Nat) (score_cutoff : Rat) : List Scored :=
  if query = "" then []
  else
    let clean_query := (default_process query).toUpper
    let kept := (scoreRows (scorer clean_query) 0 rows).filter
      fun x => score_cutoff ≤ x.score
    (kept.insertionSort rankRel).take limit

/-- The result dict built for each extracted row in `SyscoCatalog.search`. -/
def formatResult (x : Scored) : SearchResult :=
  { sysco_id := x.row.sysco_item_number, desc := x.row.description,
    brand := x.row.brand, pack_size := x.row.unit_of_measure,
    case_price := x.row.cost, match_score := x.score }

/-- `SyscoCatalog.search(query, limit=5, score_cutoff=50)`. -/
def search (scorer : String → String → Rat) (rows : List CatalogRow)
    (query : String) (limit : Nat := 5) (score_cutoff : Rat := 50) :
    List SearchResult :=
  (searchRanked scorer rows query limit score_cutoff).map formatResult

/-! ## Agent tool loop (src/backend/src/agent.py)

`ChefAgent.estimate_item` sends the dish to the reasoning service.  The
service's first reply and (when tools were called) the content of the one
follow-up structured-output reply are external inputs; message contents are
modelled as decoded JSON.  The embedded function returns the executed
searches, the number of follow-up requests issued, and the validated
result, mirroring the control flow of `estimate_item`: with no tool calls
the first reply itself is validated; otherwise every `search_catalog` call
is executed against the catalog (default limit/cutoff) and exactly one
follow-up reply is validated. -/

/-- One tool call requested by the service: the function name and the
`query` argument of its JSON arguments. -/
structure ToolCall where
  id : String
  name : String
  query : String
deriving DecidableEq

/-- The service's first reply: content plus requested tool calls (an empty
list models Python's falsy `msg.tool_calls`). -/
structure AgentMsg where
  content : Json
  tool_calls : List ToolCall := []

/-- The estimation failure, carrying the raw payload that failed
validation (the spec's `EstimationError`; the code re-raises the pydantic
validation error after printing the raw payload). -/
structure EstimationError where
  rawPayload : Json

/-- Validate a final payload against the `LineItem` shape; on schema
violation fail with the raw payload. -/
def validatePayload (payload : Json) : Except EstimationError LineItem :=
  match validateLineItem payload with
  | some li => .ok li
  | none => .error { rawPayload := payload }

/-- Observable behaviour of one `estimate_item` call. -/
structure EstimateTrace where
  searchesRun : List (String × List SearchResult)
  followupRequests : Nat
  result : Except EstimationError LineItem

/-- `ChefAgent.estimate_item`, with the reasoning service's replies as
inputs: `first` is the reply to the initial request and `finalContent` the
content of the structured-output follow-up (consumed only when `first`
requested tool calls). -/
def estimate_item (scorer : String → String → Rat) (rows : List CatalogRow)
    (first : AgentMsg) (finalContent : Json) : EstimateTrace :=
  match first.tool_calls with
  | [] =>
    { searchesRun := [], followupRequests := 0,
      result := validatePayload first.content }
  | tcs =>
    let searches := (tcs.filter fun tc => tc.name = "search_catalog").map
      fun tc => (tc.query, search scorer rows tc.query)
    { searchesRun := searches, followupRequests := 1,
      result := validatePayload finalContent }

/-! ## Persistence layer (src/backend/src/state.py)

`StateManager` keeps one `JobState` in memory and mirrors it into
`data/job_state.json`.  The disk side is a file that is absent, unreadable
(corrupt), or holds a previously saved state.  `save_state` may fail; the
failure is caught and logged, leaving the disk unchanged.  `Reach`
enumerates the (memory, disk) pairs the manager can be in: the blank start,
checkpoints (`update_batch`) and status writes with the save succeeding or
failing, a restart that reloads from disk, external corruption of the
file, and `clear_state`. -/

/-- `StateManager.update_batch`: extend the item list, bump the counter,
concatenate the learnings with the `" | "` separator (the status field is
untouched); the subsequent flush to disk is modelled in `Reach`. -/
def update_batch (s : JobState) (new_items : List LineItem)
    (new_learnings : String) : JobState :=
  { s with
    processed_items := s.processed_items ++ new_items,
    processed_count := s.processed_count + new_items.length,
    current_learnings := s.current_learnings ++ " | " ++ new_learnings }

/-- `StateManager.get_processed_names` (a Python set of the item names;
only membership is consumed, so a list of names suffices). -/
def get_processed_names (s : JobState) : List String :=
  s.processed_items.map (·.item_name)

/-- Assignment to `state.status` (main.py writes it before saving). -/
def set_status (s : JobState) (st : JobStatus) : JobState :=
  { s with status := st }

/-- The persisted file: missing, unreadable, or a stored state. -/
inductive Disk where
  | absent
  | corrupt
  | stored (s : JobState)

/-- `StateManager.load_state`: a missing or corrupt file keeps the blank
state (corruption is non-fatal); otherwise the stored state is restored. -/
def load_state : Disk → JobState
  | .stored s => s
  | _ => JobState.blank

/-- The reachable (memory, disk) configurations of the state manager. -/
inductive Reach : JobState → Disk → Prop where
  | init : Reach JobState.blank .absent
  | update_ok {m d} (new_items new_learnings) : Reach m d →
      Reach (update_batch m new_items new_learnings)
        (.stored (update_batch m new_items new_learnings))
  | update_fail {m d} (new_items new_learnings) : Reach m d →
      Reach (update_batch m new_items new_learnings) d
  | status_ok {m d} (st) : Reach m d →
      Reach (set_status m st) (.stored (set_status m st))
  | status_fail {m d} (st) : Reach m d → Reach (set_status m st) d
  | restart {m d} : Reach m d → Reach (load_state d) d
  | decay {m d} : Reach m d → Reach m .corrupt
  | clear {m d} : Reach m d → Reach JobState.blank .absent

/-! ## Batch orchestrator (src/backend/main.py)

`process_menu_background(items)` filters out the already processed names,
marks the job in progress, then loops: slice off a batch of
`BATCH_SIZE = 3`, fan the estimations out (`asyncio.gather`), compact the
context, checkpoint via `update_batch`.  An exception from any estimation
or from the compaction propagates out of the background task: the batch is
not checkpointed and the final `status = "completed"` assignment is never
reached.  Estimation and compaction are external-service calls, taken as
oracle inputs `est` and `compact`; `est` receives the dish and the
learnings snapshot read before its batch started. -/

/-- One submitted menu item; the orchestrator consumes only `i['name']`. -/
structure Dish where
  name : String
deriving DecidableEq

/-- The successive slices `todo_items[:3]` of the batch loop. -/
def chunk3 : List Dish → List (List Dish)
  | [] => []
  | [a] => [[a]]
  | [a, b] => [[a, b]]
  | a :: b :: c :: rest => [a, b, c] :: chunk3 rest

/-- `asyncio.gather` join: all results, or the first raised exception
aborts (no partial list is ever delivered). -/
def collectOk : List (Except EstimationError LineItem) → Option (List LineItem)
  | [] => some []
  | .error _ :: _ => none
  | .ok li :: rest => (collectOk rest).map (li :: ·)

/-- One iteration of the batch loop: gather the batch's estimations, run
compaction, checkpoint.  `none` models the iteration raising before
`update_batch` (a failed estimation or a failed compaction). -/
def processBatch (est : Dish → String → Except EstimationError LineItem)
    (compact : List LineItem → Except Unit String)
    (s : JobState) (batch : List Dish) : Option JobState :=
  match collectOk (batch.map fun d => est d s.current_learnings) with
  | none => none
  | some oks =>
    match compact oks with
    | .error _ => none
    | .ok new_learnings => some (update_batch s oks new_learnings)

/-- Outcome of a run: final in-memory state, the dishes for which
estimation tasks were created, and whether the loop ran to completion. -/
structure RunResult where
  state : JobState
  estimated : List Dish
  completed : Bool

/-- The batch loop over the slices of the todo list.  An aborted batch
leaves the state at the last checkpoint and stops the loop. -/
def runBatchList (est : Dish → String → Except EstimationError LineItem)
    (compact : List LineItem → Except Unit String) :
    JobState → List (List Dish) → RunResult
  | s, [] => { state := s, estimated := [], completed := true }
  | s, b :: bs =>
    match processBatch est compact s b with
    | none => { state := s, estimated := b, completed := false }
    | some s' =>
      let r := runBatchList est compact s' bs
      { state := r.state, estimated := b ++ r.estimated, completed := r.completed }

/-- `process_menu_background`: resumability filter, status to
`in_progress`, batch loop, and — only when the loop finished — status to
`completed`. -/
def process_menu_background (est : Dish → String → Except EstimationError LineItem)
    (compact : List LineItem → Except Unit String)
    (s : JobState) (items : List Dish) : RunResult :=
  let done_names := get_processed_names s
  let todo_items := items.filter fun i => ! done_names.contains i.name
  let r := runBatchList est compact (set_status s .in_progress) (chunk3 todo_items)
  if r.completed then
    { state := set_status r.state .completed, estimated := r.estimated,
      completed := r.completed }
  else r

/-! ## Concrete inputs used by the witnesses and counterexamples -/

/-- A minimal priced line item for a given dish name. -/
def liOf (n : String) : LineItem :=
  { item_name := n, category := "mains", ingredients := [],
    ingredient_cost_per_unit := 0 }

/-- A sample dish. -/
def dishA : Dish := { name := "A" }

/-- Another sample dish. -/
def dishB : Dish := { name := "B" }

/-- An estimation oracle that succeeds and echoes the dish name, as the
prompt instructs the service to. -/
def estNamed : Dish → String → Except EstimationError LineItem :=
  fun d _ => .ok (liOf d.name)

/-- A compaction oracle that always succeeds. -/
def compactConst : List LineItem → Except Unit String :=
  fun _ => .ok "no gaps found"

/-- An estimation oracle that always fails. -/
def estFailing : Dish → String → Except EstimationError LineItem :=
  fun _ _ => .error { rawPayload := .null }

/-- A compaction oracle that always fails. -/
def compactFailing : List LineItem → Except Unit String :=
  fun _ => .error ()

/-- A state that already records dish "A", as left by an earlier run. -/
def stateDoneA : JobState :=
  { processed_count := 1, processed_items := [liOf "A"],
    current_learnings := "None yet. Proceed with standard search.",
    status := .completed }

/-- JSON for a priced salt ingredient. -/
def saltJson : Json :=
  .obj [("name", .str "salt"), ("quantity", .str "1 oz"),
        ("unit_cost", .num 5), ("source", .str "estimated"),
        ("sysco_item_number", .null)]

/-- The validated form of `saltJson`. -/
def saltIngredient : Ingredient :=
  { name := "salt", quantity := "1 oz", unit_cost := some 5,
    source := .estimated, sysco_item_number := none }

/-- A payload whose cost field (999) disagrees with its ingredient sum
(5). -/
def badCostPayload : Json :=
  .obj [("item_name", .str "Pasta"), ("category", .str "mains"),
        ("ingredients", .arr [saltJson]),
        ("ingredient_cost_per_unit", .num 999)]

/-- The validated form of `badCostPayload`. -/
def badCostItem : LineItem :=
  { item_name := "Pasta", category := "mains",
    ingredients := [saltIngredient], ingredient_cost_per_unit := 999 }

/-- An ingredient whose cost is null. -/
def nullCostIngredient : Ingredient :=
  { name := "truffle", quantity := "2 g", unit_cost := none,
    source := .not_available, sysco_item_number := none }

/-- JSON for an ingredient that is priced yet marked `not_available`. -/
def badSourceJson : Json :=
  .obj [("name", .str "plutonium salt"), ("quantity", .str "1 oz"),
        ("unit_cost", .num 3), ("source", .str "not_available"),
        ("sysco_item_number", .null)]

/-- The validated form of `badSourceJson`: non-null `unit_cost` together
with `source = not_available`. -/
def badSourceIngredient : Ingredient :=
  { name := "plutonium salt", quantity := "1 oz", unit_cost := some 3,
    source := .not_available, sysco_item_number := none }

/-- JSON for an ingredient whose source is outside the Literal. -/
def badEnumJson : Json :=
  .obj [("name", .str "salt"), ("quantity", .str "1 oz"),
        ("unit_cost", .num 3), ("source", .str "grocery_store"),
        ("sysco_item_number", .null)]

/-- A final payload whose cost arrives as the string `"12.5"` and which
carries an undeclared extra field. -/
def coercedPayload : Json :=
  .obj [("item_name", .str "Soup"), ("category", .str "mains"),
        ("ingredients", .arr []),
        ("ingredient_cost_per_unit", .str "12.5"),
        ("debug_note", .bool true)]

/-- The item `coercedPayload` validates to: the string was coerced to the
number 25/2 and the extra field dropped. -/
def coercedItem : LineItem :=
  { item_name := "Soup", category := "mains", ingredients := [],
    ingredient_cost_per_unit := mkRat 25 2 }

/-- A first reply requesting one catalog search. -/
def firstMsgWithTool : AgentMsg :=
  { content := .null,
    tool_calls := [{ id := "call_1", name := "search_catalog", query := "soup" }] }

/-- A degenerate scorer. -/
def noScorer : String → String → Rat := fun _ _ => 0

/-- A scorer giving every description the same mid score. -/
def constScorer : String → String → Rat := fun _ _ => 60

/-- A one-row sample catalog. -/
def rowButter : CatalogRow :=
  { sysco_item_number := "1001", description := "BUTTER SALTED GRADE AA",
    brand := "WHLFCLS", unit_of_measure := "36/1 LB", cost := 12 }

/-- Agreement of `processed_count` with the length of `processed_items`
for an in-memory state. -/
def stateInv (m : JobState) : Prop :=
  m.processed_count = m.processed_items.length

/-- Agreement of `processed_count` with the list length for whatever the
disk holds (vacuous for a missing or corrupt file). -/
def diskInv : Disk → Prop
  | .stored s => s.processed_count = s.processed_items.length
  | _ => True

/-! # Theorems -/

/-! ## Pydantic validation round-trips -/

/-- Every well-typed `Ingredient` value is accepted back by validation:
the model checks field shapes only. -/
theorem validate_encode_ingredient (i : Ingredient) :
    validateIngredient (encodeIngredient i) = some i := by
  rcases i with ⟨n, q, uc, src, sin⟩
  rcases uc with _ | c <;> rcases sin with _ | s <;> rcases src <;> rfl

/-- Elementwise round-trip for ingredient arrays. -/
theorem validate_encode_ingredients :
    ∀ l : List Ingredient, validateIngredients (l.map encodeIngredient) = some l
  | [] => rfl
  | i :: rest => by
    simp [validateIngredients, validate_encode_ingredient i,
          validate_encode_ingredients rest]

/-- Every well-typed `LineItem` value is accepted back by validation: no
cross-field constraint (in particular no cost-sum check) is enforced. -/
theorem validate_encode_lineItem (li : LineItem) :
    validateLineItem (encodeLineItem li) = some li := by
  rcases li with ⟨n, c, ings, cost⟩
  simp [validateLineItem, encodeLineItem, lookupField, jsonToStr, jsonToFloat,
        validate_encode_ingredients]

/-! ## Claim C3 -/

/-- Claim C3 counterexample: the pipeline's validation accepts
`badCostPayload`, whose `ingredient_cost_per_unit` (999) differs from the
sum of its non-null ingredient unit costs (5) — so it is not the case that
every accepted `LineItem` satisfies the cost-aggregation equation. -/
theorem c3_cost_counterexample :
    validateLineItem badCostPayload = some badCostItem
    ∧ badCostItem.ingredient_cost_per_unit ≠ sumNonNullCosts badCostItem.ingredients := by
  refine ⟨by decide, ?_⟩
  norm_num [badCostItem, saltIngredient, sumNonNullCosts]

/-- Claim C3 (amended): validation of a `LineItem` checks only field
shapes — every well-typed `LineItem` is accepted whether or not its
`ingredient_cost_per_unit` equals the sum of the non-null ingredient unit
costs, so the equation is not enforced by the pipeline; ingredients whose
`unit_cost` is null are accepted without error and contribute zero to the
ingredient-cost sum. -/
theorem c3_cost_aggregation :
    (∀ li : LineItem, validateLineItem (encodeLineItem li) = some li)
    ∧ (∀ (i : Ingredient) (rest : List Ingredient), i.unit_cost = none →
        sumNonNullCosts (i :: rest) = sumNonNullCosts rest) := by
  refine ⟨validate_encode_lineItem, ?_⟩
  intro i rest h
  simp [sumNonNullCosts, h]

/-- Claim C3 witness: the amended theorem at concrete inputs. -/
theorem c3_cost_aggregation_witness :
    validateLineItem (encodeLineItem badCostItem) = some badCostItem
    ∧ nullCostIngredient.unit_cost = none
    ∧ sumNonNullCosts (nullCostIngredient :: [saltIngredient])
        = sumNonNullCosts [saltIngredient] :=
  ⟨c3_cost_aggregation.1 badCostItem, rfl,
   c3_cost_aggregation.2 nullCostIngredient [saltIngredient] rfl⟩

/-! ## Claim C4 -/

/-- Claim C4 counterexample: validation accepts `badSourceJson`, an
ingredient priced (unit_cost 3) yet marked `not_available`, and
`noRefJson`-style data is likewise accepted — here shown by re-validating
an encoded ingredient with `source = sysco_catalog` and a null
`sysco_item_number`; both cross-field invariants of the claim fail on
accepted ingredients. -/
theorem c4_invariant_counterexample :
    (validateIngredient badSourceJson = some badSourceIngredient
      ∧ badSourceIngredient.unit_cost ≠ none
      ∧ badSourceIngredient.source = .not_available)
    ∧ (validateIngredient (encodeIngredient
          { name := "butter", quantity := "2 oz", unit_cost := some 1,
            source := .sysco_catalog, sysco_item_number := none })
        = some { name := "butter", quantity := "2 oz", unit_cost := some 1,
                 source := .sysco_catalog, sysco_item_number := none }) := by
  exact ⟨⟨by decide, by decide, rfl⟩, by decide⟩

/-- Claim C4 (amended): validation of an `Ingredient` enforces the field
types and the three-member `source` Literal (a value outside the enum is
rejected), but no cross-field constraint: every well-typed `Ingredient` is
accepted regardless of the combination of `unit_cost`, `source` and
`sysco_item_number`. -/
theorem c4_ingredient_validation :
    (∀ i : Ingredient, validateIngredient (encodeIngredient i) = some i)
    ∧ validateIngredient badEnumJson = none :=
  ⟨validate_encode_ingredient, by decide⟩

/-- Claim C4 witness: the amended theorem at a concrete ingredient. -/
theorem c4_ingredient_validation_witness :
    validateIngredient (encodeIngredient badSourceIngredient)
      = some badSourceIngredient :=
  c4_ingredient_validation.1 badSourceIngredient

/-! ## Claim C7 -/

/-- Claim C7 counterexample: with one requested `search_catalog` call, the
final payload `coercedPayload` — whose cost field is the *string* `"12.5"`
and which carries an undeclared `debug_note` field — is accepted:
validation silently coerces the numeric string to the number 25/2 and
silently drops the extra field, contradicting "never silently coercing or
dropping fields". -/
theorem c7_coercion_counterexample :
    validateLineItem coercedPayload = some coercedItem
    ∧ (estimate_item noScorer [] firstMsgWithTool coercedPayload).result
        = .ok coercedItem
    ∧ coercedItem.ingredient_cost_per_unit = mkRat 25 2 := by
  exact ⟨by decide, rfl, rfl⟩

/-- Claim C7 (amended): with zero requested capability calls the single
response is validated against the `LineItem` shape and returned with no
search executed and no follow-up request; with one or more requested
calls, each requested `search_catalog` query is executed against the
catalog index (default limit and cutoff) and exactly one further
structured-output request produces the final payload; a payload failing
the shape check makes the estimation fail with an `EstimationError`
carrying the raw payload — but the shape check follows pydantic's lax
rules (numeric strings coerced, undeclared fields ignored), so it is not
coercion-free. -/
theorem c7_tool_loop (scorer : String → String → Rat) (rows : List CatalogRow)
    (first : AgentMsg) (finalContent : Json) :
    (first.tool_calls = [] →
      (estimate_item scorer rows first finalContent).searchesRun = []
      ∧ (estimate_item scorer rows first finalContent).followupRequests = 0
      ∧ (estimate_item scorer rows first finalContent).result
          = validatePayload first.content)
    ∧ (first.tool_calls ≠ [] →
      (estimate_item scorer rows first finalContent).searchesRun
        = (first.tool_calls.filter fun tc => tc.name = "search_catalog").map
            (fun tc => (tc.query, search scorer rows tc.query))
      ∧ (estimate_item scorer rows first finalContent).followupRequests = 1
      ∧ (estimate_item scorer rows first finalContent).result
          = validatePayload finalContent)
    ∧ (∀ payload e, validatePayload payload = .error e →
        e.rawPayload = payload ∧ validateLineItem payload = none)
    ∧ (∀ payload li, validatePayload payload = .ok li →
        validateLineItem payload = some li) := by
  refine ⟨?_, ?_, ?_, ?_⟩
  · intro h
    simp [estimate_item, h]
  · intro h
    rcases htc : first.tool_calls with _ | ⟨tc, tcs⟩
    · exact absurd htc h
    · refine ⟨?_, ?_, ?_⟩ <;> simp [estimate_item, htc]
  · intro payload e h
    unfold validatePayload at h
    rcases hv : validateLineItem payload with _ | li <;> rw [hv] at h
    · cases h; exact ⟨rfl, rfl⟩
    · cases h
  · intro payload li h
    unfold validatePayload at h
    rcases hv : validateLineItem payload with _ | li' <;> rw [hv] at h
    · cases h
    · cases h; rfl

/-- Claim C7 witness: the amended theorem at a concrete tool-calling
exchange. -/
theorem c7_tool_loop_witness :
    (estimate_item noScorer [] firstMsgWithTool coercedPayload).searchesRun
      = [("soup", [])]
    ∧ (estimate_item noScorer [] firstMsgWithTool coercedPayload).followupRequests
      = 1 := by
  have h := (c7_tool_loop noScorer [] firstMsgWithTool coercedPayload).2.1
    (by decide)
  exact ⟨h.1.trans (by decide), h.2.1⟩

/-! ## Catalog search facts -/

/-- Every scored entry carries the scorer's value for its own
description. -/
theorem scoreRows_score (f : String → Rat) :
    ∀ (rs : List CatalogRow) (i : Nat), ∀ x ∈ scoreRows f i rs,
      x.score = f x.row.description := by
  intro rs
  induction rs with
  | nil => intro i x hx; simp [scoreRows] at hx
  | cons r rest ih =>
    intro i x hx
    simp only [scoreRows, List.mem_cons] at hx
    rcases hx with rfl | hx
    · rfl
    · exact ih (i + 1) x hx

/-- Indices produced from offset `i` are at least `i`. -/
theorem scoreRows_idx_ge (f : String → Rat) :
    ∀ (rs : List CatalogRow) (i : Nat), ∀ x ∈ scoreRows f i rs, i ≤ x.idx := by
  intro rs
  induction rs with
  | nil => intro i x hx; simp [scoreRows] at hx
  | cons r rest ih =>
    intro i x hx
    simp only [scoreRows, List.mem_cons] at hx
    rcases hx with rfl | hx
    · exact le_refl _
    · exact (Nat.le_succ i).trans (ih (i + 1) x hx)

/-- Scored entries keep strictly increasing original indices. -/
theorem scoreRows_idx_sorted (f : String → Rat) :
    ∀ (rs : List CatalogRow) (i : Nat),
      (scoreRows f i rs).Pairwise (fun a b => a.idx < b.idx) := by
  intro rs
  induction rs with
  | nil => intro i; simp [scoreRows]
  | cons r rest ih =>
    intro i
    simp only [scoreRows, List.pairwise_cons]
    exact ⟨fun x hx => Nat.lt_of_lt_of_le (Nat.lt_succ_self i)
      (scoreRows_idx_ge f rest (i + 1) x hx), ih (i + 1)⟩

/-- Every extracted entry passed the cutoff and is scored by the scorer
on the cleaned query. -/
theorem mem_searchRanked {scorer : String → String → Rat}
    {rows : List CatalogRow} {query : String} {limit : Nat}
    {score_cutoff : Rat} {x : Scored}
    (hx : x ∈ searchRanked scorer rows query limit score_cutoff) :
    score_cutoff ≤ x.score
    ∧ x.score = scorer ((default_process query).toUpper) x.row.description := by
  unfold searchRanked at hx
  by_cases hq : query = ""
  · simp [hq] at hx
  · simp only [if_neg hq] at hx
    have hx1 := List.mem_of_mem_take hx
    have hx2 := (List.perm_insertionSort rankRel _).mem_iff.mp hx1
    rw [List.mem_filter] at hx2
    refine ⟨by simpa using hx2.2, ?_⟩
    exact scoreRows_score _ rows 0 x hx2.1

/-- The extraction returns at most `limit` entries. -/
theorem searchRanked_length (scorer : String → String → Rat)
    (rows : List CatalogRow) (query : String) (limit : Nat)
    (score_cutoff : Rat) :
    (searchRanked scorer rows query limit score_cutoff).length ≤ limit := by
  unfold searchRanked
  by_cases hq : query = ""
  · simp [hq]
  · simp only [if_neg hq]
    rw [List.length_take]
    exact min_le_left _ _

/-- The extraction is ordered by non-increasing score, and entries with
equal score keep the original table order. -/
theorem searchRanked_pairwise (scorer : String → String → Rat)
    (rows : List CatalogRow) (query : String) (limit : Nat)
    (score_cutoff : Rat) :
    (searchRanked scorer rows query limit score_cutoff).Pairwise
      (fun a b => b.score ≤ a.score ∧ (a.score = b.score → a.idx < b.idx)) := by
  unfold searchRanked
  by_cases hq : query = ""
  · simp [hq]
  · simp only [if_neg hq]
    set kept := (scoreRows (scorer ((default_process query).toUpper)) 0 rows).filter
      (fun x => decide (score_cutoff ≤ x.score)) with hkept
    have hidx : kept.Pairwise (fun a b => a.idx < b.idx) :=
      List.Pairwise.sublist (List.filter_sublist _) (scoreRows_idx_sorted _ rows 0)
    have hne : kept.Pairwise (fun a b => a.idx ≠ b.idx) :=
      hidx.imp (fun h => Nat.ne_of_lt h)
    have hperm := List.perm_insertionSort rankRel kept
    have hsorted : (kept.insertionSort rankRel).Pairwise rankRel :=
      List.sorted_insertionSort rankRel kept
    have hne2 : (kept.insertionSort rankRel).Pairwise (fun a b => a.idx ≠ b.idx) :=
      (List.Perm.pairwise_iff (fun h => h.symm) hperm).mpr hne
    refine List.Pairwise.sublist (List.take_sublist _ _) ((hsorted.and hne2).imp ?_)
    rintro a b ⟨hr | ⟨heq, hle⟩, hab⟩
    · exact ⟨le_of_lt hr, fun he => absurd (he ▸ hr) (lt_irrefl _)⟩
    · exact ⟨heq.ge, fun _ => lt_of_le_of_ne hle hab⟩

/-! ## Claim C5 -/

/-- Claim C5: for every query, limit and cutoff, `search` returns at most
`limit` results; every returned result has a score at least the cutoff and
(for a scorer on the 0–100 scale) at most 100; results are the formatted
image of the extraction, which is ordered by descending score with ties
kept in original catalog-table order. -/
theorem c5_search_contract (scorer : String → String → Rat)
    (rows : List CatalogRow) (query : String) (limit : Nat)
    (score_cutoff : Rat) (hscorer : ∀ a b, scorer a b ≤ 100) :
    search scorer rows query limit score_cutoff
      = (searchRanked scorer rows query limit score_cutoff).map formatResult
    ∧ (search scorer rows query limit score_cutoff).length ≤ limit
    ∧ (∀ r ∈ search scorer rows query limit score_cutoff,
        score_cutoff ≤ r.match_score ∧ r.match_score ≤ 100)
    ∧ (searchRanked scorer rows query limit score_cutoff).Pairwise
        (fun a b => b.score ≤ a.score ∧ (a.score = b.score → a.idx < b.idx)) := by
  refine ⟨rfl, ?_, ?_, searchRanked_pairwise scorer rows query limit score_cutoff⟩
  · rw [search, List.length_map]
    exact searchRanked_length scorer rows query limit score_cutoff
  · intro r hr
    rw [search, List.mem_map] at hr
    obtain ⟨x, hx, rfl⟩ := hr
    have h := mem_searchRanked hx
    have hms : (formatResult x).match_score = x.score := rfl
    rw [hms, h.2]
    exact ⟨h.2 ▸ h.1, hscorer _ _⟩

/-- Claim C5 witness: the contract at a concrete catalog and query. -/
theorem c5_search_contract_witness :
    (search constScorer [rowButter] "butter" 3 50).length ≤ 3
    ∧ (∀ r ∈ search constScorer [rowButter] "butter" 3 50,
        (50 : Rat) ≤ r.match_score ∧ r.match_score ≤ 100) :=
  ⟨(c5_search_contract constScorer [rowButter] "butter" 3 50
      (fun _ _ => by norm_num [constScorer])).2.1,
   (c5_search_contract constScorer [rowButter] "butter" 3 50
      (fun _ _ => by norm_num [constScorer])).2.2.1⟩

/-! ## Claim C10 -/

/-- Claim C10: for every limit and cutoff (and any scorer and catalog),
searching the empty query returns the empty list: the guard fires before
the index is consulted and nothing is raised. -/
theorem c10_empty_query (scorer : String → String → Rat)
    (rows : List CatalogRow) (limit : Nat) (score_cutoff : Rat) :
    search scorer rows "" limit score_cutoff = [] := by
  simp [search, searchRanked]

/-- Claim C10 witness: the empty-query guard at concrete arguments. -/
theorem c10_empty_query_witness :
    search constScorer [rowButter] "" 5 50 = [] :=
  c10_empty_query constScorer [rowButter] 5 50

/-! ## State-store facts -/

/-- A checkpoint preserves count/length agreement. -/
theorem stateInv_update {m : JobState} (h : stateInv m)
    (new_items : List LineItem) (new_learnings : String) :
    stateInv (update_batch m new_items new_learnings) := by
  unfold stateInv at *
  simp only [update_batch, List.length_append]
  rw [h]
  push_cast
  ring

/-- A status write preserves count/length agreement. -/
theorem stateInv_set_status {m : JobState} (h : stateInv m) (st : JobStatus) :
    stateInv (set_status m st) := h

/-- The blank state satisfies count/length agreement. -/
theorem stateInv_blank : stateInv JobState.blank := rfl

/-- Along every reachable configuration, both the in-memory state and any
stored disk copy satisfy count/length agreement. -/
theorem reach_inv {m : JobState} {d : Disk} (h : Reach m d) :
    stateInv m ∧ diskInv d := by
  induction h with
  | init => exact ⟨stateInv_blank, trivial⟩
  | update_ok new_items new_learnings _ ih =>
    exact ⟨stateInv_update ih.1 new_items new_learnings,
           stateInv_update ih.1 new_items new_learnings⟩
  | update_fail new_items new_learnings _ ih =>
    exact ⟨stateInv_update ih.1 new_items new_learnings, ih.2⟩
  | status_ok st _ ih =>
    exact ⟨stateInv_set_status ih.1 st, stateInv_set_status ih.1 st⟩
  | status_fail st _ ih =>
    exact ⟨stateInv_set_status ih.1 st, ih.2⟩
  | @restart m d _ ih =>
    refine ⟨?_, ih.2⟩
    cases d with
    | absent => exact stateInv_blank
    | corrupt => exact stateInv_blank
    | stored s => exact ih.2
  | decay _ ih => exact ⟨ih.1, trivial⟩
  | clear _ ih => exact ⟨stateInv_blank, trivial⟩

/-! ## Claim C2 -/

/-- Claim C2: in every reachable configuration — the blank start, after
loads, and after any sequence of `update_batch` checkpoints with saves
succeeding or failing — `processed_count` equals the length of
`processed_items` (in memory and in any stored disk copy), `update_batch`
never decreases `processed_count`, and the state recovered by a load keeps
count and length equal; in particular a failed save during a checkpoint
leaves both the live state and the recovery state consistent, with no
partial increment. -/
theorem c2_checkpoint_invariant (m : JobState) (d : Disk) (h : Reach m d) :
    (m.processed_count = m.processed_items.length
      ∧ (∀ s, d = .stored s → s.processed_count = s.processed_items.length))
    ∧ (∀ (new_items : List LineItem) (new_learnings : String),
        m.processed_count ≤ (update_batch m new_items new_learnings).processed_count)
    ∧ (load_state d).processed_count = (load_state d).processed_items.length := by
  have hinv := reach_inv h
  refine ⟨⟨hinv.1, ?_⟩, ?_, (reach_inv (Reach.restart h)).1⟩
  · rintro s rfl
    exact hinv.2
  · intro new_items new_learnings
    exact le_add_of_nonneg_right (Int.natCast_nonneg _)

/-- Claim C2 witness: the invariant at the blank configuration and a
concrete checkpoint. -/
theorem c2_checkpoint_invariant_witness :
    JobState.blank.processed_count = JobState.blank.processed_items.length
    ∧ JobState.blank.processed_count
        ≤ (update_batch JobState.blank [liOf "A"] "quirks").processed_count :=
  ⟨(c2_checkpoint_invariant _ _ Reach.init).1.1,
   (c2_checkpoint_invariant _ _ Reach.init).2.1 [liOf "A"] "quirks"⟩

/-! ## Orchestrator facts -/

/-- The batch slices cover the todo list exactly. -/
theorem chunk3_flatten : ∀ l : List Dish, (chunk3 l).flatten = l
  | [] => rfl
  | [a] => rfl
  | [a, b] => rfl
  | a :: b :: c :: rest => by
    simp [chunk3, List.flatten_cons, chunk3_flatten rest]

/-- If every estimation in a batch succeeds and echoes the dish name, the
gather join returns all results, whose names are the batch's names. -/
theorem collectOk_ok {est : Dish → String → Except EstimationError LineItem}
    (lrn : String)
    (hest : ∀ d lrn2, ∃ li, est d lrn2 = .ok li ∧ li.item_name = d.name) :
    ∀ b : List Dish, ∃ oks, collectOk (b.map fun d => est d lrn) = some oks
      ∧ oks.map (·.item_name) = b.map (·.name) := by
  intro b
  induction b with
  | nil => exact ⟨[], rfl, rfl⟩
  | cons d rest ih =>
    obtain ⟨oks, hok, hnames⟩ := ih
    obtain ⟨li, hd, hname⟩ := hest d lrn
    refine ⟨li :: oks, ?_, ?_⟩
    · simp [collectOk, hd, hok]
    · simp [hnames, hname]

/-- If any estimation in a batch fails, the gather join delivers no
result list. -/
theorem collectOk_error {est : Dish → String → Except EstimationError LineItem}
    {lrn : String} :
    ∀ {b : List Dish}, (∃ d ∈ b, ∃ e, est d lrn = .error e) →
      collectOk (b.map fun d => est d lrn) = none := by
  intro b
  induction b with
  | nil => rintro ⟨d, hd, _⟩; simp at hd
  | cons d0 rest ih =>
    rintro ⟨d, hd, e, he⟩
    simp only [List.mem_cons] at hd
    rcases hd with rfl | hd
    · simp [collectOk, he]
    · rcases h0 : est d0 lrn with e0 | li0
      · simp [collectOk, h0]
      · simp [collectOk, h0, ih ⟨d, hd, e, he⟩]

/-- A committed batch step is exactly an `update_batch` checkpoint of the
gathered results with the compaction output. -/
theorem processBatch_some {est : Dish → String → Except EstimationError LineItem}
    {compact : List LineItem → Except Unit String} {s : JobState}
    {b : List Dish} {s2 : JobState}
    (h : processBatch est compact s b = some s2) :
    ∃ oks nl, s2 = update_batch s oks nl ∧ compact oks = .ok nl
      ∧ collectOk (b.map fun d => est d s.current_learnings) = some oks := by
  unfold processBatch at h
  split at h
  · cases h
  · split at h
    · cases h
    · cases h
      rename_i x1 oks h1 x2 nl h2
      exact ⟨oks, nl, rfl, h2, h1⟩

/-- The batch loop under fully successful oracles: it completes, creates
estimation tasks exactly for the flattened slices, appends items whose
names are the slices' names in order, and never touches the status. -/
theorem runBatchList_ok {est : Dish → String → Except EstimationError LineItem}
    {compact : List LineItem → Except Unit String}
    (hest : ∀ d lrn, ∃ li, est d lrn = .ok li ∧ li.item_name = d.name)
    (hcomp : ∀ rs, ∃ t, compact rs = .ok t) :
    ∀ (bs : List (List Dish)) (s : JobState),
      (runBatchList est compact s bs).completed = true
      ∧ (runBatchList est compact s bs).estimated = bs.flatten
      ∧ (runBatchList est compact s bs).state.processed_items.map (·.item_name)
          = s.processed_items.map (·.item_name) ++ bs.flatten.map (·.name)
      ∧ (runBatchList est compact s bs).state.status = s.status := by
  intro bs
  induction bs with
  | nil => intro s; exact ⟨rfl, rfl, by simp [runBatchList], rfl⟩
  | cons b rest ih =>
    intro s
    obtain ⟨oks, hok, hnames⟩ := collectOk_ok s.current_learnings hest b
    obtain ⟨t, ht⟩ := hcomp oks
    have hpb : processBatch est compact s b = some (update_batch s oks t) := by
      simp [processBatch, hok, ht]
    have ihs := ih (update_batch s oks t)
    refine ⟨?_, ?_, ?_, ?_⟩
    · simp [runBatchList, hpb, ihs.1]
    · simp [runBatchList, hpb, ihs.2.1]
    · rw [List.flatten_cons, List.map_append, ← hnames]
      simp only [runBatchList, hpb]
      rw [ihs.2.2.1]
      simp [update_batch, List.map_append]
    · simp only [runBatchList, hpb]
      rw [ihs.2.2.2]
      rfl

/-- The batch loop only ever appends to `processed_items`. -/
theorem runBatchList_extend (est : Dish → String → Except EstimationError LineItem)
    (compact : List LineItem → Except Unit String) :
    ∀ (bs : List (List Dish)) (s : JobState),
      ∃ t, (runBatchList est compact s bs).state.processed_items
        = s.processed_items ++ t := by
  intro bs
  induction bs with
  | nil => intro s; exact ⟨[], by simp [runBatchList]⟩
  | cons b rest ih =>
    intro s
    rcases hpb : processBatch est compact s b with _ | s2
    · exact ⟨[], by simp [runBatchList, hpb]⟩
    · obtain ⟨oks, nl, rfl, _, _⟩ := processBatch_some hpb
      obtain ⟨t, ht⟩ := ih (update_batch s oks nl)
      refine ⟨oks ++ t, ?_⟩
      simp only [runBatchList, hpb]
      rw [ht]
      simp [update_batch]

/-- The batch loop never writes the status field. -/
theorem runBatchList_status (est : Dish → String → Except EstimationError LineItem)
    (compact : List LineItem → Except Unit String) :
    ∀ (bs : List (List Dish)) (s : JobState),
      (runBatchList est compact s bs).state.status = s.status := by
  intro bs
  induction bs with
  | nil => intro s; rfl
  | cons b rest ih =>
    intro s
    rcases hpb : processBatch est compact s b with _ | s2
    · simp [runBatchList, hpb]
    · obtain ⟨oks, nl, rfl, _, _⟩ := processBatch_some hpb
      simp only [runBatchList, hpb]
      rw [ih (update_batch s oks nl)]
      rfl

/-- A finished run reports `in_progress` or `completed`; `failed` is never
assigned by the orchestrator. -/
theorem process_menu_status (est : Dish → String → Except EstimationError LineItem)
    (compact : List LineItem → Except Unit String)
    (s : JobState) (items : List Dish) :
    (process_menu_background est compact s items).state.status = .in_progress
    ∨ (process_menu_background est compact s items).state.status = .completed := by
  simp only [process_menu_background]
  split
  · right; rfl
  · left
    rw [runBatchList_status]
    rfl

/-- A run only ever appends to `processed_items`. -/
theorem process_menu_extend (est : Dish → String → Except EstimationError LineItem)
    (compact : List LineItem → Except Unit String)
    (s : JobState) (items : List Dish) :
    ∃ t, (process_menu_background est compact s items).state.processed_items
      = s.processed_items ++ t := by
  simp only [process_menu_background]
  obtain ⟨t, ht⟩ := runBatchList_extend est compact
    (chunk3 (items.filter fun i => ! (get_processed_names s).contains i.name))
    (set_status s .in_progress)
  refine ⟨t, ?_⟩
  split
  · exact ht
  · exact ht

/-! ## Claim C1 -/

/-- Claim C1 counterexample: submitting the list `[A, A]` (a duplicated
dish name) against a blank state estimates both entries — the resume
filter is computed once, before the run — so the final `processed_items`
carries the name "A" twice: the claimed "no duplicates" fails when the
submitted list itself repeats a name. -/
theorem c1_resumability_counterexample :
    ((process_menu_background estNamed compactConst JobState.blank
        [dishA, dishA]).state.processed_items.map (fun li => li.item_name))
      = ["A", "A"]
    ∧ ¬ ((process_menu_background estNamed compactConst JobState.blank
        [dishA, dishA]).state.processed_items.map (fun li => li.item_name)).Nodup := by
  exact ⟨rfl, by decide⟩

/-- Claim C1 (amended): for a dish list `D` with pairwise-distinct names,
a prefix `P` of `D` already recorded in `processed_items`, an estimation
oracle that succeeds echoing each dish's name, and a succeeding
compaction, re-submitting `D` completes, creates estimation tasks exactly
for the dishes of `D` whose names are not among the recorded item names,
and leaves `processed_items` whose name list is exactly `D`'s name list —
hence equal as a set to `D`'s names and duplicate-free. -/
theorem c1_resumability (est : Dish → String → Except EstimationError LineItem)
    (compact : List LineItem → Except Unit String) (s : JobState)
    (P D : List Dish)
    (hpre : P <+: D)
    (hrec : s.processed_items.map (·.item_name) = P.map (·.name))
    (hnodup : (D.map (·.name)).Nodup)
    (hest : ∀ d lrn, ∃ li, est d lrn = .ok li ∧ li.item_name = d.name)
    (hcomp : ∀ rs, ∃ t, compact rs = .ok t) :
    (process_menu_background est compact s D).completed = true
    ∧ (process_menu_background est compact s D).estimated
        = D.filter (fun d => ! (get_processed_names s).contains d.name)
    ∧ (process_menu_background est compact s D).state.processed_items.map
        (·.item_name) = D.map (·.name)
    ∧ ((process_menu_background est compact s D).state.processed_items.map
        (·.item_name)).toFinset = (D.map (·.name)).toFinset
    ∧ ((process_menu_background est compact s D).state.processed_items.map
        (·.item_name)).Nodup := by
  obtain ⟨Q, rfl⟩ := hpre
  have hmapD : ((P ++ Q).map (fun d : Dish => d.name))
      = P.map (fun d => d.name) ++ Q.map (fun d => d.name) :=
    List.map_append _ _ _
  have hdisj : (P.map fun d : Dish => d.name).Disjoint
      (Q.map fun d : Dish => d.name) := by
    rw [hmapD] at hnodup
    exact (List.nodup_append.mp hnodup).2.2
  have hnames : get_processed_names s = P.map (fun d => d.name) := hrec
  have htodo : (P ++ Q).filter
      (fun d => ! (get_processed_names s).contains d.name) = Q := by
    rw [List.filter_append]
    have h1 : P.filter (fun d => ! (get_processed_names s).contains d.name)
        = [] := by
      rw [List.filter_eq_nil_iff]
      intro a ha
      simp [hnames, List.mem_map_of_mem (fun d : Dish => d.name) ha]
    have h2 : Q.filter (fun d => ! (get_processed_names s).contains d.name)
        = Q := by
      rw [List.filter_eq_self]
      intro a ha
      have hnot : a.name ∉ P.map (fun d : Dish => d.name) := fun hmem =>
        hdisj hmem (List.mem_map_of_mem _ ha)
      simp [hnames, hnot]
    rw [h1, h2, List.nil_append]
  have hrun := runBatchList_ok hest hcomp (chunk3 Q) (set_status s .in_progress)
  have key : process_menu_background est compact s (P ++ Q)
      = { state := set_status (runBatchList est compact
            (set_status s .in_progress) (chunk3 Q)).state .completed,
          estimated := (runBatchList est compact
            (set_status s .in_progress) (chunk3 Q)).estimated,
          completed := (runBatchList est compact
            (set_status s .in_progress) (chunk3 Q)).completed } := by
    simp only [process_menu_background, htodo]
    rw [if_pos hrun.1]
  have hnames_final : (process_menu_background est compact s
        (P ++ Q)).state.processed_items.map (·.item_name)
      = (P ++ Q).map (·.name) := by
    rw [key]
    have hset : (set_status (runBatchList est compact
          (set_status s .in_progress) (chunk3 Q)).state
          .completed).processed_items
        = (runBatchList est compact (set_status s .in_progress)
            (chunk3 Q)).state.processed_items := rfl
    show (set_status _ _).processed_items.map (·.item_name) = _
    rw [hset, hrun.2.2.1]
    have hss : (set_status s .in_progress).processed_items
        = s.processed_items := rfl
    rw [hss, hrec, chunk3_flatten, hmapD]
  refine ⟨?_, ?_, hnames_final, ?_, ?_⟩
  · rw [key]
    exact hrun.1
  · rw [key]
    show (runBatchList est compact (set_status s .in_progress)
        (chunk3 Q)).estimated = _
    rw [hrun.2.1, chunk3_flatten, htodo]
  · rw [hnames_final]
  · rw [hnames_final]
    exact hnodup

/-- Claim C1 witness: the amended theorem with `P = [A]` recorded and
`D = [A, B]` resubmitted — only `B` is estimated and the final names are
`["A", "B"]`. -/
theorem c1_resumability_witness :
    (process_menu_background estNamed compactConst stateDoneA
        [dishA, dishB]).completed = true
    ∧ (process_menu_background estNamed compactConst stateDoneA
        [dishA, dishB]).estimated = [dishB]
    ∧ (process_menu_background estNamed compactConst stateDoneA
        [dishA, dishB]).state.processed_items.map (·.item_name)
      = ["A", "B"] := by
  have h := c1_resumability estNamed compactConst stateDoneA [dishA]
    [dishA, dishB] ⟨[dishB], rfl⟩ rfl (by decide)
    (fun d lrn => ⟨liOf d.name, rfl, rfl⟩) (fun rs => ⟨"no gaps found", rfl⟩)
  exact ⟨h.1, h.2.1.trans (by decide), h.2.2.1.trans (by decide)⟩

/-! ## Claim C8 -/

/-- Claim C8: if any estimation in a batch fails, the batch loop aborts
with the state exactly as it was at the last checkpoint — no items, count
increment, or learnings from the aborted batch; the orchestrator's final
status can read `failed` only if some batch aborted (it never assigns
`failed` at all), and the processed items of any run extend the initial
ones, so progress up to the last successful checkpoint is preserved. -/
theorem c8_all_or_none (est : Dish → String → Except EstimationError LineItem)
    (compact : List LineItem → Except Unit String) (s : JobState)
    (b : List Dish) (bs : List (List Dish)) (items : List Dish)
    (hfail : ∃ d ∈ b, ∃ e, est d s.current_learnings = .error e) :
    runBatchList est compact s (b :: bs)
      = { state := s, estimated := b, completed := false }
    ∧ ((process_menu_background est compact s items).state.status = .failed →
        (process_menu_background est compact s items).completed = false)
    ∧ s.processed_items <+:
        (process_menu_background est compact s items).state.processed_items := by
  refine ⟨?_, ?_, ?_⟩
  · have hpb : processBatch est compact s b = none := by
      unfold processBatch
      rw [collectOk_error hfail]
    simp [runBatchList, hpb]
  · intro hst
    rcases process_menu_status est compact s items with h | h <;>
      rw [h] at hst <;> cases hst
  · obtain ⟨t, ht⟩ := process_menu_extend est compact s items
    exact ⟨t, ht.symm⟩

/-- Claim C8 witness: the all-or-none abort at a concrete failing
batch. -/
theorem c8_all_or_none_witness :
    runBatchList estFailing compactConst JobState.blank [[dishA]]
      = { state := JobState.blank, estimated := [dishA], completed := false }
    ∧ JobState.blank.processed_items <+:
        (process_menu_background estFailing compactConst JobState.blank
          [dishA]).state.processed_items := by
  have h := c8_all_or_none estFailing compactConst JobState.blank [dishA] []
    [dishA] ⟨dishA, by decide, ⟨{ rawPayload := .null }, rfl⟩⟩
  exact ⟨h.1, h.2.2⟩

/-! ## Claim C9 -/

/-- Claim C9 counterexample: with a succeeding estimation and a failing
compaction, running one dish from the blank state commits nothing — the
batch's results are discarded and the job never completes (status stays
`in_progress`) — contradicting "compactor failure is never job
failure". -/
theorem c9_compaction_counterexample :
    (process_menu_background estNamed compactFailing JobState.blank
        [dishA]).state.processed_items = []
    ∧ (process_menu_background estNamed compactFailing JobState.blank
        [dishA]).completed = false
    ∧ (process_menu_background estNamed compactFailing JobState.blank
        [dishA]).state.status = .in_progress := by
  exact ⟨rfl, rfl, rfl⟩

/-- Claim C9 (amended): a failure of the context-compaction step aborts
the current batch before its checkpoint: the batch's results are
discarded, the loop halts, and the state — items, count and learnings —
is left exactly at the last successful checkpoint. -/
theorem c9_compaction_abort (est : Dish → String → Except EstimationError LineItem)
    (compact : List LineItem → Except Unit String) (s : JobState)
    (b : List Dish) (bs : List (List Dish))
    (hcomp : ∀ rs, ∃ u, compact rs = .error u) :
    runBatchList est compact s (b :: bs)
      = { state := s, estimated := b, completed := false } := by
  have hpb : processBatch est compact s b = none := by
    unfold processBatch
    rcases h1 : collectOk (b.map fun d => est d s.current_learnings) with _ | oks
    · rfl
    · obtain ⟨u, hu⟩ := hcomp oks
      simp [hu]
  simp [runBatchList, hpb]

/-- Claim C9 witness: the compaction abort at a concrete batch. -/
theorem c9_compaction_abort_witness :
    runBatchList estNamed compactFailing JobState.blank [[dishA]]
      = { state := JobState.blank, estimated := [dishA], completed := false } :=
  c9_compaction_abort estNamed compactFailing JobState.blank [dishA] []
    (fun _ => ⟨(), rfl⟩)

end YesChef
